import Mathlib

/-!
Verification development for the FocusGroup_CNest room-orchestration engine.

Shallow embedding conventions:
* Python `str` is modelled as `List Char` (abbreviated `Str`); all string
  operations used by the code (strip, lower, substring search, regex forms)
  are modelled character-by-character at ASCII scope (all inputs the program
  manipulates in the claimed code paths are ASCII command syntax or opaque
  text passed through unchanged).
* Python dicts keyed by strings are modelled as association lists.
* The wall-clock timestamp field of a log entry is dropped (external clock,
  never read by any claimed code path).
* The generation backend (Ollama) is an external collaborator: it is
  modelled as an explicit parameter (an `Except` result, or a chunk list /
  outcome oracle for streaming), matching the spec's "opaque call" boundary.
* The Redis history store is modelled by an explicit trace of the
  `append_exchange` calls the code performs.
-/

namespace FocusGroup

/-- Python `str` modelled as a list of characters. -/
abbrev Str := List Char

/-- Python whitespace for `str.strip` / regex `\s` (ASCII scope):
space, tab, newline, carriage return, vertical tab, form feed. -/
def pyIsSpace (c : Char) : Bool :=
  c == ' ' || c == '\t' || c == '\n' || c == '\r' || c == '\x0b' || c == '\x0c'

/-- Python `str.strip()`: drop whitespace from both ends. -/
def pyStrip (s : Str) : Str :=
  ((s.dropWhile pyIsSpace).reverse.dropWhile pyIsSpace).reverse

/-- Python `str.lower()` (ASCII scope). -/
def lowerStr (s : Str) : Str := s.map Char.toLower

/-- Regex `\w` (ASCII scope): letters, digits, underscore. -/
def isWordChar (c : Char) : Bool := c.isAlpha || c.isDigit || c == '_'

/-- First occurrence of `pat` as a contiguous substring of `s`:
`some (before, after)` splits `s = before ++ pat ++ after` at the leftmost
occurrence, `none` if `pat` does not occur.  This models Python's
`pat in s` / `s.split(pat, 1)` and the scanning of a regex engine. -/
def splitFirst (pat : Str) : Str → Option (Str × Str)
  | [] => if pat.isEmpty then some ([], []) else none
  | c :: cs =>
    if pat.isPrefixOf (c :: cs) then some ([], (c :: cs).drop pat.length)
    else (splitFirst pat cs).map (fun p => (c :: p.1, p.2))

/-- Python `pat in s`. -/
def containsSub (pat s : Str) : Bool := (splitFirst pat s).isSome

/-- Predicate: `pat` occurs in `s` starting at index `i`. -/
def occursAt (pat s : Str) (i : Nat) : Prop := pat.isPrefixOf (s.drop i) = true

instance (pat s : Str) (i : Nat) : Decidable (occursAt pat s i) := by
  unfold occursAt; infer_instance

/-- Number of indices of `s` at which `pat` occurs. -/
def countOcc (pat s : Str) : Nat :=
  (List.range s.length).countP (fun i => pat.isPrefixOf (s.drop i))

/-- The part of `s` strictly after the first occurrence of `pat`
(empty when `pat` does not occur). -/
def afterFirst (pat s : Str) : Str :=
  match splitFirst pat s with
  | some p => p.2
  | none => []

/-- Python string join with a separator. -/
def joinSep (sep : Str) : List Str → Str
  | [] => []
  | [x] => x
  | x :: y :: rest => x ++ sep ++ joinSep sep (y :: rest)

/-- Decimal digits to a natural number (Python `int` on a digit run). -/
def digitsToNat (s : Str) : Nat :=
  s.foldl (fun n c => n * 10 + (c.toNat - '0'.toNat)) 0

/-- A `Nat` rendered in decimal (Python f-string interpolation of an int). -/
def natStr (n : Nat) : Str := (toString n).toList

/-! ## core/room.py -/

/-- One `{role, content}` exchange turn; Python role strings
`"user"` / `"assistant"`. -/
inductive Role
  | user
  | assistant
deriving DecidableEq, Repr

/-- A history message `{role: ..., content: ...}`. -/
structure Msg where
  role : Role
  content : Str
deriving DecidableEq, Repr

/-- Model of `PersonaContext` (core/room.py): per-room materialisation of a
registry entry. -/
structure PersonaContext where
  persona_key : Str
  name : Str
  redis_key : Str
  system_prompt : Str
  history : List Msg
deriving DecidableEq, Repr

/-- One transcript entry (`make_log_entry` in core/room.py).  The
`timestamp` field (wall clock, never read back) is dropped from the
embedding. -/
structure LogEntry where
  entry_type : Str      -- "user", "persona", "system"
  persona_key : Str
  persona_name : Str
  thoughts : Str
  content : Str
deriving DecidableEq, Repr

/-- Model of `RoomState` (core/room.py). `personas` is the
`persona_key -> PersonaContext` dict as an association list. -/
structure RoomState where
  active_personas : List Str
  focus_persona : Str
  mode : Str
  personas : List (Str × PersonaContext)
  full_log : List LogEntry
  topic : Str
  topic_context : Str
  image_contexts : List (Str × Str)
deriving DecidableEq, Repr

/-- Model of `make_log_entry` (core/room.py), with the wall-clock timestamp
omitted as noted above. -/
def make_log_entry (entry_type content : Str) (persona_key : Str := [])
    (persona_name : Str := []) (thoughts : Str := []) : LogEntry :=
  { entry_type := entry_type, persona_key := persona_key,
    persona_name := persona_name, thoughts := thoughts, content := content }

/-- Model of `add_persona_to_room` (core/room.py): append the key to
`active_personas` if not already present. -/
def add_persona_to_room (state : RoomState) (persona_key : Str) : RoomState :=
  if persona_key ∈ state.active_personas then state
  else { state with active_personas := state.active_personas ++ [persona_key] }

/-- Model of `kick_persona_from_room` (core/room.py): remove the key from
`active_personas`; clear focus if it pointed at that key. -/
def kick_persona_from_room (state : RoomState) (persona_key : Str) : RoomState :=
  { state with
    active_personas := state.active_personas.filter (fun k => k ≠ persona_key),
    focus_persona :=
      if state.focus_persona = persona_key then [] else state.focus_persona }

/-- Model of `set_focus` (core/room.py). -/
def set_focus (state : RoomState) (persona_key : Str) : RoomState :=
  { state with focus_persona := persona_key }

/-- Model of `clear_focus` (core/room.py). -/
def clear_focus (state : RoomState) : RoomState :=
  { state with focus_persona := [] }

/-- Model of `append_log` (core/room.py). -/
def append_log (state : RoomState) (entry : LogEntry) : RoomState :=
  { state with full_log := state.full_log ++ [entry] }

/-! ## core/nodes.py -/

/-- The opening thinking marker `<think>` (written out as characters so
that list equations apply; see `openTag_eq`). -/
def openTag : Str := ['<', 't', 'h', 'i', 'n', 'k', '>']

/-- The closing thinking marker `</think>` (see `closeTag_eq`). -/
def closeTag : Str := ['<', '/', 't', 'h', 'i', 'n', 'k', '>']

/-- Model of `THINKING_INSTRUCTION` (core/nodes.py). -/
def THINKING_INSTRUCTION : Str :=
  ("\n\n== THINKING ==\nBefore responding, briefly think through your genuine, in-character reaction. Wrap your internal thought process in <think></think> tags immediately before your response. Keep thoughts authentic to your character — this is your private reasoning. Example format:\n\n<think>\nHmm, this is interesting. I feel... [your genuine reaction as this character]\n</think>\n\n[Your actual spoken response here]\n\n== RESPONSE LENGTH ==\nSay what needs to be said — no more. A simple question: 1–3 sentences. Something complex or contested: a short paragraph or two at most. No padding, no restating what was just said. If you\x27ve made your point, stop.\n").toList

/-- Model of `_LONG_SESSION_THRESHOLD` (core/nodes.py). -/
def _LONG_SESSION_THRESHOLD : Nat := 15

/-- Model of `_LONG_SESSION_HINT` (core/nodes.py). -/
def _LONG_SESSION_HINT : Str :=
  ("\n\n[You\x27ve been in this focus group for quite a while now. At some natural point it would be realistic to mention you have something coming up — a meeting, needing to pick up the kids, a call you\x27re expecting, etc. You don\x27t have to leave immediately, but you can plant the seed. Only do this if it fits naturally into the conversation; don\x27t force it every turn.]\n").toList

/-- Model of `_topic_block` (core/nodes.py). -/
def _topic_block (topic_context : Str) : Str :=
  "\n\n== CURRENT DISCUSSION TOPIC ==\n".toList ++ pyStrip topic_context ++ "\n".toList

/-- Model of `_image_block` (core/nodes.py). -/
def _image_block (image_context : Str) : Str :=
  "\n\n== ADVERTISEMENTS SHARED IN THIS ROOM ==\n".toList ++ pyStrip image_context ++
  ("\n\nWhen asked about an image, react as yourself. What draws you in? What puts you off? What does it make you feel based on your values, taste, lifestyle, and experiences? Do not summarise — give your genuine, in-character reaction.\n").toList

/-- Model of `_room_constraint` (core/nodes.py). -/
def _room_constraint (participant_names : List Str) (my_name : Str := []) : Str :=
  let names := joinSep ", ".toList participant_names
  let voice_lock :=
    if my_name ≠ [] then
      ("\nThis response is YOUR turn only. You are speaking as ").toList ++ my_name ++
      " and only ".toList ++ my_name ++
      (". Never simulate, quote, or speak for any other participant — not even to illustrate what they might say. One voice, one perspective per turn. If someone else would respond, they will get their own turn.").toList
    else []
  "\n\n== WHO IS IN THIS ROOM ==\nThe ONLY people present in this focus group session are: ".toList ++
  names ++
  (".\nThere are NO other participants. Do NOT address, mention, or respond to anyone not on this list — not by name, not by implication. If you feel the urge to reference someone else, stop and redirect to the people actually listed here.").toList ++
  voice_lock ++ "\n".toList

/-- The leftmost match of the regex `<think>(.*?)</think>` (DOTALL):
scan start positions left to right; a position matches when `<think>` is
a prefix there and `</think>` occurs somewhere after it; the non-greedy
interior ends at the first such `</think>`.  Returns
`some (pre, interior, post)` splitting the text around the whole match. -/
def thinkMatch : Str → Option (Str × Str × Str)
  | [] => none
  | c :: cs =>
    if openTag.isPrefixOf (c :: cs) then
      match splitFirst closeTag ((c :: cs).drop openTag.length) with
      | some (b, post) => some ([], b, post)
      | none => (thinkMatch cs).map (fun r => (c :: r.1, r.2.1, r.2.2))
    else (thinkMatch cs).map (fun r => (c :: r.1, r.2.1, r.2.2))

/-- Model of `extract_thinking` (core/nodes.py): extract the `<think>...</think>`
block; returns `(thoughts, clean_response)`. -/
def extract_thinking (raw_response : Str) : Str × Str :=
  match thinkMatch raw_response with
  | some (pre, b, post) => (pyStrip b, pyStrip (pre ++ post))
  | none => ([], pyStrip raw_response)

/-- Accumulator of the streaming loop in `generate_response_for_persona`
(core/nodes.py lines 218-232): the accumulated raw text, the
`thinking_closed` flag, and the trace of strings passed to `on_token`. -/
structure StreamAcc where
  raw : Str
  thinking_closed : Bool
  emitted : List Str
deriving DecidableEq, Repr

/-- One iteration of the `for chunk in llm.stream(messages)` loop
(non-string chunks are skipped by the code's `isinstance` guard, so
chunks are modelled as strings). -/
def stream_step (acc : StreamAcc) (token : Str) : StreamAcc :=
  let raw := acc.raw ++ token
  if acc.thinking_closed then
    { raw := raw, thinking_closed := true, emitted := acc.emitted ++ [token] }
  else
    match splitFirst closeTag raw with
    | some p =>
      { raw := raw, thinking_closed := true,
        emitted := acc.emitted ++ (if p.2.isEmpty then [] else [p.2]) }
    | none => { raw := raw, thinking_closed := false, emitted := acc.emitted }

/-- The whole streaming loop over a chunk sequence, starting from
`raw_text = ""`, `thinking_closed = False`. -/
def stream_fold (chunks : List Str) : StreamAcc :=
  chunks.foldl stream_step ⟨[], false, []⟩

/-- One role-tagged message sent to the generation backend. -/
inductive ChatMsg
  | system (content : Str)
  | human (content : Str)
  | ai (content : Str)
deriving DecidableEq, Repr

/-- The ordered message list built by `generate_response_for_persona`:
system instruction, the prior history (user turns as human messages,
assistant turns as AI messages), then the new input. -/
def buildMessages (system_with_thinking : Str) (history : List Msg)
    (input_text : Str) : List ChatMsg :=
  ChatMsg.system system_with_thinking ::
    (history.map (fun m =>
      match m.role with
      | .user => ChatMsg.human m.content
      | .assistant => ChatMsg.ai m.content)
    ++ [ChatMsg.human input_text])

/-- One `append_exchange` call against the Redis history store
(db/redis_client.py lines 24-28: load, append the user/assistant pair,
save). -/
structure RedisWrite where
  redis_key : Str
  user_msg : Str
  assistant_msg : Str
deriving DecidableEq, Repr

/-- Model of `generate_response_for_persona` (core/nodes.py).  The generation
backend is an external collaborator and is passed as an `Except` value:
`.ok raw` is the fully obtained reply text, `.error e` a raised backend
failure.  The returned pair is (the function's result or the propagated
failure, the trace of history-store `append_exchange` calls performed).
The creativity parameter (temperature 0.8 when `is_observe` else 0.75)
is backend configuration and has no effect on the embedded state. -/
def generate_response_for_persona (persona_ctx : PersonaContext)
    (input_text : Str) (is_observe : Bool := false)
    (room_participants : Option (List Str) := none)
    (topic_context : Str := []) (image_context : Str := [])
    (backend : Except Str Str := .error []) :
    Except Str (Str × Str × List Msg) × List RedisWrite :=
  let _ := is_observe
  let sys1 := persona_ctx.system_prompt ++
    (if topic_context ≠ [] then _topic_block topic_context else [])
  let sys2 := sys1 ++
    (if image_context ≠ [] then _image_block image_context else [])
  let sys3 :=
    match room_participants with
    | some (n :: ns) => sys2 ++ _room_constraint (n :: ns) persona_ctx.name
    | _ => sys2
  let sys4 := sys3 ++ THINKING_INSTRUCTION
  let exchange_count := persona_ctx.history.length / 2
  let sys5 :=
    if exchange_count ≥ _LONG_SESSION_THRESHOLD then sys4 ++ _LONG_SESSION_HINT
    else sys4
  let _messages := buildMessages sys5 persona_ctx.history input_text
  match backend with
  | .error e => (.error e, [])
  | .ok raw_text =>
    let p := extract_thinking raw_text
    let updated_history := persona_ctx.history ++
      [⟨.user, input_text⟩, ⟨.assistant, p.2⟩]
    (.ok (p.1, p.2, updated_history),
     [⟨persona_ctx.redis_key, input_text, p.2⟩])

/-! ## core/prompt_builder.py

The `disagreeable` weight is a Python float.  The claimed code path only
clamps it (`max(0.0, min(1.0, w))`) and compares it against the exactly
representable constants 0.25, 0.5, 0.75; no rounding arithmetic occurs,
so the embedding over `ℚ` is exact for every representable input. -/

/-- Model of `_disagreeable_descriptor` (core/prompt_builder.py). -/
def _disagreeable_descriptor (weight : ℚ) : Str :=
  if weight ≤ 1/4 then
    ("naturally agreeable — you find common ground easily, validate others\x27 points, and are genuinely open to being persuaded by reasonable arguments").toList
  else if weight ≤ 1/2 then
    ("generally open-minded — you have clear opinions but don\x27t fight hard for them; a solid argument will move you without much resistance").toList
  else if weight ≤ 3/4 then
    ("opinionated and assertive — you\x27ll defend your stance, push back on things you disagree with, and need real convincing before you shift position").toList
  else
    ("strongly opinionated and resistant — you hold your ground and find ways to make your perspective land. You don\x27t cave to social pressure or weak arguments, and when you feel strongly about something you naturally steer the conversation in your direction — you don\x27t announce this, you just do it.").toList

/-- The bucket index (0..3) selected by `_disagreeable_descriptor`. -/
def bucketOf (weight : ℚ) : Nat :=
  if weight ≤ 1/4 then 0
  else if weight ≤ 1/2 then 1
  else if weight ≤ 3/4 then 2
  else 3

/-- The descriptor text of each bucket. -/
def bucketText : Nat → Str
  | 0 => ("naturally agreeable — you find common ground easily, validate others\x27 points, and are genuinely open to being persuaded by reasonable arguments").toList
  | 1 => ("generally open-minded — you have clear opinions but don\x27t fight hard for them; a solid argument will move you without much resistance").toList
  | 2 => ("opinionated and assertive — you\x27ll defend your stance, push back on things you disagree with, and need real convincing before you shift position").toList
  | _ => ("strongly opinionated and resistant — you hold your ground and find ways to make your perspective land. You don\x27t cave to social pressure or weak arguments, and when you feel strongly about something you naturally steer the conversation in your direction — you don\x27t announce this, you just do it.").toList

/-- The `metadata.get("disagreeable", 0.5)` value as seen by
`build_system_prompt` (core/prompt_builder.py lines 50-56): the key may be
absent, hold a value `float()` accepts (a number or numeric string, carried
as its exact value), or hold a value on which `float()` raises
`TypeError`/`ValueError`. -/
inductive MetaWeight
  | absent
  | numeric (q : ℚ)
  | nonNumeric
deriving DecidableEq

/-- The weight actually used: `float(metadata.get("disagreeable", 0.5))`
clamped by `max(0.0, min(1.0, ...))` inside the `try`, with the
`except (TypeError, ValueError)` arm defaulting to 0.5. -/
def disagreeable_weight : MetaWeight → ℚ
  | .absent => max 0 (min 1 (1/2))
  | .numeric q => max 0 (min 1 q)
  | .nonNumeric => 1/2

/-- The disposition descriptor `build_system_prompt` embeds in the
`== YOUR DISPOSITION ==` layer. -/
def disposition (m : MetaWeight) : Str :=
  _disagreeable_descriptor (disagreeable_weight m)

/-! ## core/persona_router.py -/

/-- The dynamic `@name -> persona key` mention map (a Python dict),
as an association list. -/
abbrev AliasMap := List (Str × Str)

/-- Python `dict.get`. -/
def aliasGet (m : AliasMap) (k : Str) : Option Str :=
  (m.find? (fun p => p.1 == k)).map (fun p => p.2)

/-- The `Command` dicts returned by `detect_command`
(core/persona_router.py), as a tagged union; the surrounding `Option` in
`detect_command` models the `None` (plain utterance) return. -/
inductive Command
  | exit
  | reset
  | help
  | did_you_mean (suggestion : Str)
  | usage_hint (hint : Str)
  | observe (observe_topic : Option Str) (observe_rounds : Option Nat)
  | unfocus
  | topic_clear
  | topic_set (topic : Str)
  | add (persona_key persona_name : Str)
  | add_unknown (persona_name : Str)
  | kick (persona_key persona_name : Str)
  | kick_unknown (persona_name : Str)
  | focus (persona_key persona_name : Str)
  | focus_unknown (persona_name : Str)
  | image_load (source : Str)
  | image_clear
  | image_list
deriving DecidableEq, Repr

/-- The leftmost match of `re.search(r'"([^"]+)"', rest)`: scan for a
`"` followed by at least one non-`"` character and a closing `"`;
returns `some (before, content, after)` splitting around the whole match. -/
def findQuoted : Str → Option (Str × Str × Str)
  | [] => none
  | c :: cs =>
    if c = '"' then
      match cs.dropWhile (fun x => x != '"') with
      | '"' :: after =>
        let content := cs.takeWhile (fun x => x != '"')
        if content.isEmpty then
          (findQuoted cs).map (fun r => (c :: r.1, r.2.1, r.2.2))
        else some ([], content, after)
      | _ => (findQuoted cs).map (fun r => (c :: r.1, r.2.1, r.2.2))
    else (findQuoted cs).map (fun r => (c :: r.1, r.2.1, r.2.2))

/-- The leftmost match of `re.search(r'\b(\d+)\b', rest)`: the first
maximal digit run preceded and followed by a word boundary.  `prev` is
the character before the current scan position (`none` at the start). -/
def findNum (prev : Option Char) : Str → Option Str
  | [] => none
  | c :: cs =>
    let prevWord := match prev with
      | none => false
      | some p => isWordChar p
    if c.isDigit && !prevWord then
      let run := c :: cs.takeWhile Char.isDigit
      let after := cs.dropWhile Char.isDigit
      let ok := match after with
        | [] => true
        | a :: _ => !isWordChar a
      if ok then some run else findNum (some c) cs
    else findNum (some c) cs

/-- The `!observe` argument parsing (core/persona_router.py lines 51-72):
optional first double-quoted topic, optional trailing-integer round count
(minimum 1); keys are present only when truthy. -/
def parseObserve (stripped : Str) : Command :=
  let rest := pyStrip (stripped.drop "!observe".length)
  match findQuoted rest with
  | some (before, content, after) =>
    let obs_topic := pyStrip content
    let rest2 := pyStrip (before ++ after)
    Command.observe (if obs_topic.isEmpty then none else some obs_topic)
      ((findNum none rest2).map (fun ds => max 1 (digitsToNat ds)))
  | none =>
    Command.observe none
      ((findNum none rest).map (fun ds => max 1 (digitsToNat ds)))

/-- The match of `re.match(r'^!cmd\s+(.+)$', stripped, re.IGNORECASE)`
for a verb of length `n` whose lowercase form has already been checked as
a prefix of `lower`: at least one whitespace, then a nonempty remainder
containing no newline (regex `.` does not match `\n`; `stripped` cannot
end in whitespace, so `$` is end-of-string).  Returns group(1): the
remainder after the maximal whitespace run. -/
def tailArg (n : Nat) (stripped : Str) : Option Str :=
  match stripped.drop n with
  | [] => none
  | a :: rest =>
    if pyIsSpace a then
      let g := (a :: rest).dropWhile pyIsSpace
      if g.isEmpty then none
      else if g.contains '\n' then none
      else some g
    else none

/-- The match of `re.match(r'^!cmd\s+@(\w+)$', ...)`: at least one
whitespace, `@`, then a nonempty all-word-character run to the end.
Returns group(1). -/
def atNameArg (n : Nat) (stripped : Str) : Option Str :=
  match stripped.drop n with
  | [] => none
  | a :: rest =>
    if pyIsSpace a then
      match (a :: rest).dropWhile pyIsSpace with
      | '@' :: w => if !w.isEmpty && w.all isWordChar then some w else none
      | _ => none
    else none

/-- The match of `re.match(r'^!cmd\s+(\w+)$', ...)` (the missing-`@`
forms): at least one whitespace, then a nonempty all-word-character run
to the end.  Returns group(1). -/
def wordNameArg (n : Nat) (stripped : Str) : Option Str :=
  match stripped.drop n with
  | [] => none
  | a :: rest =>
    if pyIsSpace a then
      match (a :: rest).dropWhile pyIsSpace with
      | [] => none
      | w => if w.all isWordChar then some w else none
    else none

/-- Model of `detect_command` (core/persona_router.py): classify a raw moderator
line into a command, `none` meaning a plain utterance.  `map_` is the
dynamic mention map. -/
def detect_command (map_ : AliasMap) (user_input : Str) : Option Command :=
  let stripped := pyStrip user_input
  let lower := lowerStr stripped
  if "!exit".toList.isPrefixOf lower then some .exit
  else if "!quit".toList.isPrefixOf lower then some .exit
  else if lower = "exit".toList ∨ lower = "quit".toList then
    some (.did_you_mean "!exit".toList)
  else if lower = "!reset".toList ∨ lower = "!clear".toList then some .reset
  else if lower = "!help".toList ∨ lower = "!commands".toList ∨ lower = "!?".toList then
    some .help
  else if "!observe".toList.isPrefixOf lower then some (parseObserve stripped)
  else if lower = "!focus".toList then some .unfocus
  else if lower = "!topic".toList then some .topic_clear
  else if ("!topic".toList.isPrefixOf lower) ∧ (tailArg 6 stripped).isSome then
    (tailArg 6 stripped).map (fun t => .topic_set (pyStrip t))
  else if ("!add".toList.isPrefixOf lower) ∧ (atNameArg 4 stripped).isSome then
    (atNameArg 4 stripped).map (fun w =>
      let name := lowerStr w
      match aliasGet map_ ('@' :: name) with
      | some key => .add key name
      | none => .add_unknown name)
  else if ("!add".toList.isPrefixOf lower) ∧ (wordNameArg 4 stripped).isSome then
    (wordNameArg 4 stripped).map (fun w =>
      .did_you_mean ("!add @".toList ++ lowerStr w))
  else if lower = "!add".toList then some (.usage_hint "Usage: !add @name".toList)
  else if ("!kick".toList.isPrefixOf lower) ∧ (atNameArg 5 stripped).isSome then
    (atNameArg 5 stripped).map (fun w =>
      let name := lowerStr w
      match aliasGet map_ ('@' :: name) with
      | some key => .kick key name
      | none => .kick_unknown name)
  else if ("!kick".toList.isPrefixOf lower) ∧ (wordNameArg 5 stripped).isSome then
    (wordNameArg 5 stripped).map (fun w =>
      .did_you_mean ("!kick @".toList ++ lowerStr w))
  else if lower = "!kick".toList then some (.usage_hint "Usage: !kick @name".toList)
  else if ("!focus".toList.isPrefixOf lower) ∧ (atNameArg 6 stripped).isSome then
    (atNameArg 6 stripped).map (fun w =>
      let name := lowerStr w
      match aliasGet map_ ('@' :: name) with
      | some key => .focus key name
      | none => .focus_unknown name)
  else if ("!focus".toList.isPrefixOf lower) ∧ (wordNameArg 6 stripped).isSome then
    (wordNameArg 6 stripped).map (fun w =>
      .did_you_mean ("!focus @".toList ++ lowerStr w))
  else if ("!image".toList.isPrefixOf lower) ∧ (tailArg 6 stripped).isSome then
    (tailArg 6 stripped).map (fun t =>
      let source := pyStrip t
      let source :=
        if source.length ≥ 2 ∧ source.head? = source.getLast? ∧
            (source.head? = some '\x27' ∨ source.head? = some '"') then
          (source.drop 1).dropLast
        else source
      if lowerStr source = "clear".toList then .image_clear
      else .image_load source)
  else if lower = "!image".toList then
    some (.usage_hint "Usage: !image <filepath>  or  !image clear".toList)
  else if lower = "!images".toList then some .image_list
  else none

/-! ## main.py — observe mode

`run_observe` drives the turn engine through `stream_persona_response`,
whose result is the `(thoughts, response, updated_history)` triple of
`generate_response_for_persona`.  The backend is external, so each
generation call is modelled by an oracle `Nat → Outcome` indexed by the
number of completed calls so far: `reply` is a successful call (carrying
the already-extracted thoughts and visible response), `interrupt` a
`KeyboardInterrupt` raised while the call is in progress.  A missing
persona key raises an uncaught `KeyError` (`room_state["personas"][pkey]`),
modelled as `none` for the whole run. -/

/-- The outcome of one generation call inside observe mode. -/
inductive Outcome
  | reply (thoughts response : Str)
  | interrupt
deriving DecidableEq, Repr

/-- Whether an outcome is a successful reply. -/
def Outcome.isReply : Outcome → Bool
  | .reply _ _ => true
  | .interrupt => false

/-- Python dict lookup `personas[k]` as an option. -/
def personaGet (m : List (Str × PersonaContext)) (k : Str) : Option PersonaContext :=
  (m.find? (fun p => p.1 == k)).map (fun p => p.2)

/-- Python dict assignment `d[k] = v` (keeps the position of an existing
key, appends a new one). -/
def assocSet (m : List (Str × PersonaContext)) (k : Str) (v : PersonaContext) :
    List (Str × PersonaContext) :=
  match m with
  | [] => [(k, v)]
  | (k', v') :: rest =>
    if k' == k then (k, v) :: rest else (k', v') :: assocSet rest k v

/-- The loop state of `run_observe`: the threaded room state, the
current prompt, and the number of completed generation calls (the oracle
index). -/
structure ObsSt where
  room : RoomState
  current_prompt : Str
  idx : Nat
deriving Repr

/-- Result of a piece of the observe dialogue loop: continue normally,
stop on `KeyboardInterrupt` (synthesis skipped), or crash on an uncaught
`KeyError`. -/
inductive ObsStep
  | cont (st : ObsSt)
  | stopped (st : ObsSt)
  | crash

/-- One dialogue turn of the observe loop (main.py lines 628-652):
generate for `pkey`, merge the updated history, log the reply, and
rewrite the prompt to address the other participants. -/
def obsTurnResult (all_names : List Str) (speaker_list seed : Str)
    (st : ObsSt) (pkey : Str) (ctx : PersonaContext)
    (thoughts response : Str) : ObsSt :=
  let updated_history := ctx.history ++
    [⟨.user, st.current_prompt⟩, ⟨.assistant, response⟩]
  let room1 := { st.room with
    personas := assocSet st.room.personas pkey { ctx with history := updated_history } }
  let room2 := append_log room1
    (make_log_entry "persona".toList response pkey ctx.name thoughts)
  let other_names := all_names.filter (fun n => n ≠ ctx.name)
  let addressee :=
    if other_names ≠ [] then joinSep " and ".toList other_names
    else "the other participant".toList
  let prompt :=
    "[".toList ++ ctx.name ++ " just said to ".toList ++ addressee ++
    "]: \"".toList ++ response ++ "\"\n[You are ".toList ++ addressee ++
    ". Respond directly to ".toList ++ ctx.name ++ ". Only ".toList ++
    speaker_list ++ " are in this room. Keep the discussion on: \"".toList ++
    seed ++ "\"]".toList
  ⟨room2, prompt, st.idx + 1⟩

/-- One dialogue turn: crash on a missing key (`KeyError`), stop on a
`KeyboardInterrupt` during the generation call, else continue with
`obsTurnResult`. -/
def obsTurn (oracle : Nat → Outcome) (all_names : List Str)
    (speaker_list seed : Str) (st : ObsSt) (pkey : Str) : ObsStep :=
  match personaGet st.room.personas pkey with
  | none => .crash
  | some ctx =>
    match oracle st.idx with
    | .interrupt => .stopped st
    | .reply thoughts response =>
      .cont (obsTurnResult all_names speaker_list seed st pkey ctx thoughts response)

/-- Loop body `for pkey in active:` — one full pass over the active keys. -/
def obsPass (oracle : Nat → Outcome) (all_names : List Str)
    (speaker_list seed : Str) (st : ObsSt) : List Str → ObsStep
  | [] => .cont st
  | k :: ks =>
    match obsTurn oracle all_names speaker_list seed st k with
    | .cont st' => obsPass oracle all_names speaker_list seed st' ks
    | .stopped st' => .stopped st'
    | .crash => .crash

/-- Loop `while round_count < rounds:` — the dialogue rounds. -/
def obsRounds (oracle : Nat → Outcome) (all_names : List Str)
    (speaker_list seed : Str) (keys : List Str) (st : ObsSt) : Nat → ObsStep
  | 0 => .cont st
  | n + 1 =>
    match obsPass oracle all_names speaker_list seed st keys with
    | .cont st' => obsRounds oracle all_names speaker_list seed keys st' n
    | .stopped st' => .stopped st'
    | .crash => .crash

/-- The synthesis round (main.py lines 661-693): each active participant
is asked the fixed wrap-up question once; a `KeyboardInterrupt` during a
generation breaks out of the loop, keeping entries logged so far. -/
def synthLoop (oracle : Nat → Outcome) (synthesis_prompt : Str)
    (st : ObsSt) : List Str → Option ObsSt
  | [] => some st
  | k :: ks =>
    match personaGet st.room.personas k with
    | none => none
    | some ctx =>
      match oracle st.idx with
      | .interrupt => some st
      | .reply thoughts response =>
        let updated_history := ctx.history ++
          [⟨.user, synthesis_prompt⟩, ⟨.assistant, response⟩]
        let room1 := { st.room with
          personas := assocSet st.room.personas k { ctx with history := updated_history } }
        let room2 := append_log room1
          (make_log_entry "persona".toList response k ctx.name thoughts)
        synthLoop oracle synthesis_prompt ⟨room2, st.current_prompt, st.idx + 1⟩ ks

/-- Model of `_DEFAULT_OBSERVE_ROUNDS` (main.py). -/
def _DEFAULT_OBSERVE_ROUNDS : Nat := 3

/-- The dialogue-rounds-plus-synthesis tail of `run_observe` (main.py
lines 626-695), factored out of `run_observe` below: run the dialogue
rounds; on interruption return the state so far (synthesis skipped); on
natural completion run the synthesis round. -/
def run_observe_loop (oracle : Nat → Outcome) (all_names : List Str)
    (speaker_list seed : Str) (active : List Str) (st0 : ObsSt)
    (rounds : Nat) : Option (RoomState × Nat) :=
  match obsRounds oracle all_names speaker_list seed active st0 rounds with
  | .crash => none
  | .stopped st => some (st.room, st.idx)
  | .cont st =>
    let synthesis_prompt :=
      ("[The observation is complete. The moderator now asks you directly: Based on everything discussed about ").toList ++
      st.room.topic ++
      (", what specific offer, price point, bundle, or product version would actually work for you? Don\x27t generalise — give a concrete, honest answer the moderator can act on. What would make you say yes?]").toList
    match synthLoop oracle synthesis_prompt st active with
    | none => none
    | some st' => some (st'.room, st'.idx)

/-- Model of `run_observe` (main.py lines 567-695).  Returns `some (final room
state, number of completed generation calls)`, or `none` when the run
aborts on an uncaught `KeyError` for a missing persona key. -/
def run_observe (room_state : RoomState) (observe_topic : Str)
    (observe_rounds : Nat) (oracle : Nat → Outcome) :
    Option (RoomState × Nat) :=
  let active := room_state.active_personas
  if active.length < 2 then some (room_state, 0)
  else
    let rounds := if observe_rounds > 0 then observe_rounds else _DEFAULT_OBSERVE_ROUNDS
    let seed0 := observe_topic
    let seed1 :=
      if seed0 ≠ [] then seed0
      else ((room_state.full_log.reverse.find?
              (fun e => e.entry_type == "user".toList)).map
              (fun e => e.content)).getD []
    let seed :=
      if seed1 ≠ [] then seed1
      else "Share your honest thoughts on ".toList ++ room_state.topic ++ ".".toList
    let round_label :=
      natStr rounds ++ " round".toList ++ (if rounds ≠ 1 then "s".toList else [])
    let log_note :=
      "Observing (".toList ++ round_label ++ ")".toList ++
      (if observe_topic ≠ [] then ": ".toList ++ observe_topic else []) ++ ".".toList
    let roomNoted := append_log room_state (make_log_entry "system".toList log_note)
    let all_names := active.filterMap
      (fun k => (personaGet roomNoted.personas k).map (fun c => c.name))
    let speaker_list := joinSep " and ".toList all_names
    let seed_prompt :=
      "[The moderator has stepped back. Only ".toList ++ speaker_list ++
      (" are in this room — speak only to each other. The moderator wants you to discuss: \"").toList ++
      seed ++
      ("\". If you disagree, don\x27t just move on — negotiate, push back, and try to find what\x27s genuinely fair. Make any agreement feel earned, not polite.]").toList
    run_observe_loop oracle all_names speaker_list seed active
      ⟨roomNoted, seed_prompt, 0⟩ rounds

/-! ## Concrete fixtures used by witnesses and counterexamples -/

/-- A loaded persona context fixture. -/
def ctxLena : PersonaContext :=
  ⟨"1".toList, "Lena".toList, "persona:lena:session".toList, "sys".toList, []⟩

/-- A second loaded persona context fixture. -/
def ctxMarcus : PersonaContext :=
  ⟨"2".toList, "Marcus".toList, "persona:marcus:session".toList, "sys".toList, []⟩

/-- A two-participant room fixture. -/
def roomTwo : RoomState :=
  ⟨["1".toList, "2".toList], [], "chat".toList,
   [("1".toList, ctxLena), ("2".toList, ctxMarcus)], [],
   "PlayStation 5".toList, [], []⟩

/-- A one-participant room fixture. -/
def roomOne : RoomState :=
  ⟨["1".toList], "1".toList, "chat".toList, [("1".toList, ctxLena)], [],
   "PlayStation 5".toList, [], []⟩

/-- An oracle whose generation calls all succeed. -/
def oracleOk : Nat → Outcome := fun _ => .reply "t".toList "r".toList

/-- An oracle interrupted during the second generation call. -/
def oracleStop1 : Nat → Outcome :=
  fun n => if n = 0 then .reply "t".toList "r".toList else .interrupt

/-! ## Theorems -/

/-- A key occurs exactly once in a duplicate-free list containing it. -/
theorem count_eq_one_of_nodup_mem {l : List Str} {k : Str}
    (hnd : l.Nodup) (hk : k ∈ l) : l.count k = 1 := by
  induction l with
  | nil => cases hk
  | cons a t ih =>
    rcases List.mem_cons.mp hk with h | h
    · subst h
      have h0 : t.count k = 0 :=
        List.count_eq_zero.mpr (List.nodup_cons.mp hnd).1
      simp [List.count_cons_self, h0]
    · have hne : k ≠ a := by
        rintro rfl; exact (List.nodup_cons.mp hnd).1 h
      rw [List.count_cons_of_ne hne]
      exact ih (List.nodup_cons.mp hnd).2 h

/-- C1: `add_persona_to_room` appends an absent key at the end, leaves the
previously active keys unchanged and in order, yields a list containing the
key exactly once (on states satisfying the no-duplicates invariant), and is
idempotent. -/
theorem add_persona_spec (S : RoomState) (k : Str)
    (hnd : S.active_personas.Nodup) :
    (add_persona_to_room S k).active_personas.count k = 1
  ∧ (k ∉ S.active_personas →
      (add_persona_to_room S k).active_personas = S.active_personas ++ [k])
  ∧ (k ∈ S.active_personas → add_persona_to_room S k = S)
  ∧ add_persona_to_room (add_persona_to_room S k) k = add_persona_to_room S k := by
  by_cases hk : k ∈ S.active_personas
  · have heq : add_persona_to_room S k = S := by
      simp [add_persona_to_room, hk]
    refine ⟨?_, fun h => absurd hk h, fun _ => heq, ?_⟩
    · rw [heq]; exact count_eq_one_of_nodup_mem hnd hk
    · rw [heq, heq]
  · have heq : add_persona_to_room S k
        = { S with active_personas := S.active_personas ++ [k] } := by
      simp [add_persona_to_room, hk]
    have hmem : k ∈ (add_persona_to_room S k).active_personas := by
      rw [heq]; simp
    refine ⟨?_, fun _ => by rw [heq], fun h => absurd h hk, ?_⟩
    · rw [heq]
      simp [List.count_append, List.count_eq_zero.mpr hk]
    · conv_lhs => rw [add_persona_to_room]
      rw [if_pos hmem]

/-- C1 witness: adding key "2" to a one-participant room. -/
theorem add_persona_spec_witness :
    (add_persona_to_room roomOne "2".toList).active_personas.count "2".toList = 1
  ∧ (add_persona_to_room (add_persona_to_room roomOne "2".toList) "2".toList
      = add_persona_to_room roomOne "2".toList) := by
  have h := add_persona_spec roomOne "2".toList (by decide)
  exact ⟨h.1, h.2.2.2⟩

/-- C2: `kick_persona_from_room` filters the key out of the active list,
clears the focus exactly when it pointed at the kicked key, and preserves
the invariant that a non-empty focus key is an active member. -/
theorem kick_persona_spec (S : RoomState) (k : Str) :
    (kick_persona_from_room S k).active_personas
        = S.active_personas.filter (fun x => x ≠ k)
  ∧ k ∉ (kick_persona_from_room S k).active_personas
  ∧ (S.focus_persona = k → (kick_persona_from_room S k).focus_persona = [])
  ∧ (S.focus_persona ≠ k →
      (kick_persona_from_room S k).focus_persona = S.focus_persona)
  ∧ ((S.focus_persona ≠ [] → S.focus_persona ∈ S.active_personas) →
      (kick_persona_from_room S k).focus_persona ≠ [] →
      (kick_persona_from_room S k).focus_persona
        ∈ (kick_persona_from_room S k).active_personas) := by
  refine ⟨rfl, ?_, fun h => by simp [kick_persona_from_room, h], fun h => by
    simp [kick_persona_from_room, h], ?_⟩
  · intro hmem
    simp only [kick_persona_from_room, List.mem_filter] at hmem
    simpa using hmem.2
  · intro hinv hne
    by_cases hfk : S.focus_persona = k
    · exact absurd (by simp [kick_persona_from_room, hfk]) hne
    · have hf : (kick_persona_from_room S k).focus_persona = S.focus_persona := by
        simp [kick_persona_from_room, hfk]
      rw [hf] at hne ⊢
      simp only [kick_persona_from_room, List.mem_filter]
      exact ⟨hinv hne, by simpa using hfk⟩

/-- C2 witness: kicking the focused participant "1" from a room focused
on "1". -/
theorem kick_persona_spec_witness :
    (kick_persona_from_room roomOne "1".toList).focus_persona = [] := by
  have h := kick_persona_spec roomOne "1".toList
  exact h.2.2.1 (by decide)

/-- C9: `run_observe` on a room with fewer than two active participants
returns the state unchanged, with no generation call performed. -/
theorem run_observe_rejects_small_room (S : RoomState) (t : Str) (r : Nat)
    (oracle : Nat → Outcome) (h : S.active_personas.length < 2) :
    run_observe S t r oracle = some (S, 0) := by
  unfold run_observe
  simp [h]

/-- C9 witness: observe on a one-participant room. -/
theorem run_observe_rejects_small_room_witness :
    run_observe roomOne [] 2 oracleOk = some (roomOne, 0) :=
  run_observe_rejects_small_room roomOne [] 2 oracleOk (by decide)

/-- C3: command parsing is total and deterministic (every input maps to
exactly one `Option Command` value), verbs and alias names are matched
case-insensitively (`!add @Lena` and `!add @lena` resolve to the same
key), and the claimed concrete scenarios hold: `hello` is a plain
utterance, `!exit` is Exit, `!observe "best console ever" 5` is Observe
with that seed and 5 rounds, and `!focus @lena` resolves through the
alias table or reports an unknown name. -/
theorem detect_command_spec :
    (∀ (m : AliasMap) (s : Str), ∃! r : Option Command, detect_command m s = r)
  ∧ detect_command [] "hello".toList = none
  ∧ detect_command [] "!exit".toList = some .exit
  ∧ detect_command [] ("!observe \"best console ever\" 5").toList
      = some (.observe (some "best console ever".toList) (some 5))
  ∧ detect_command [("@lena".toList, "1".toList)] "!focus @lena".toList
      = some (.focus "1".toList "lena".toList)
  ∧ detect_command [] "!focus @lena".toList
      = some (.focus_unknown "lena".toList)
  ∧ detect_command [("@lena".toList, "1".toList)] "!add @Lena".toList
      = detect_command [("@lena".toList, "1".toList)] "!add @lena".toList
  ∧ detect_command [("@lena".toList, "1".toList)] "!add @Lena".toList
      = some (.add "1".toList "lena".toList) := by
  refine ⟨fun m s => ⟨detect_command m s, rfl, fun y h => h.symm⟩,
    ?_, ?_, ?_, ?_, ?_, ?_, ?_⟩ <;> decide

/-- C5: the disposition descriptor is a total monotone step function on
the clamped weight with exactly four buckets and boundaries at 1/4, 1/2,
3/4; out-of-range numeric weights are clamped into [0,1] before lookup;
an absent or non-numeric weight defaults to 1/2, which lands in the
second (midpoint) bucket. -/
theorem disposition_spec :
    (∀ w₁ w₂ : ℚ, w₁ ≤ w₂ → bucketOf w₁ ≤ bucketOf w₂)
  ∧ (∀ w : ℚ, _disagreeable_descriptor w = bucketText (bucketOf w))
  ∧ (∀ w : ℚ, bucketOf w ≤ 3)
  ∧ (∀ w : ℚ, (bucketOf w = 0 ↔ w ≤ 1/4) ∧ (bucketOf w = 1 ↔ 1/4 < w ∧ w ≤ 1/2)
      ∧ (bucketOf w = 2 ↔ 1/2 < w ∧ w ≤ 3/4) ∧ (bucketOf w = 3 ↔ 3/4 < w))
  ∧ (∀ q : ℚ, disagreeable_weight (.numeric q) = max 0 (min 1 q))
  ∧ (∀ m : MetaWeight, 0 ≤ disagreeable_weight m ∧ disagreeable_weight m ≤ 1)
  ∧ disagreeable_weight .absent = 1/2
  ∧ disagreeable_weight .nonNumeric = 1/2
  ∧ bucketOf (1/2) = 1
  ∧ (∀ m : MetaWeight, disposition m = bucketText (bucketOf (disagreeable_weight m)))
  ∧ bucketOf (disagreeable_weight (.numeric 2)) = 3
  ∧ bucketOf (disagreeable_weight (.numeric (-1))) = 0 := by
  have hdesc : ∀ w : ℚ, _disagreeable_descriptor w = bucketText (bucketOf w) := by
    intro w
    unfold _disagreeable_descriptor bucketOf
    split_ifs <;> rfl
  have b0 : ∀ w : ℚ, bucketOf w = 0 ↔ w ≤ 1/4 := by
    intro w; unfold bucketOf
    split_ifs with h1 h2 h3
    · exact iff_of_true rfl h1
    · refine iff_of_false (by simp) h1
    · refine iff_of_false (by simp) h1
    · refine iff_of_false (by simp) h1
  have b1 : ∀ w : ℚ, bucketOf w = 1 ↔ 1/4 < w ∧ w ≤ 1/2 := by
    intro w; unfold bucketOf
    split_ifs with h1 h2 h3
    · refine iff_of_false (by simp) (fun hc => absurd h1 (not_le.mpr hc.1))
    · exact iff_of_true rfl ⟨not_le.mp h1, h2⟩
    · refine iff_of_false (by simp) (fun hc => absurd hc.2 h2)
    · refine iff_of_false (by simp) (fun hc => absurd hc.2 h2)
  have b2 : ∀ w : ℚ, bucketOf w = 2 ↔ 1/2 < w ∧ w ≤ 3/4 := by
    intro w; unfold bucketOf
    split_ifs with h1 h2 h3
    · refine iff_of_false (by simp) (fun hc => by linarith [hc.1])
    · refine iff_of_false (by simp) (fun hc => by linarith [hc.1])
    · exact iff_of_true rfl ⟨not_le.mp h2, h3⟩
    · refine iff_of_false (by simp) (fun hc => absurd hc.2 h3)
  have b3 : ∀ w : ℚ, bucketOf w = 3 ↔ 3/4 < w := by
    intro w; unfold bucketOf
    split_ifs with h1 h2 h3
    · refine iff_of_false (by simp) (fun hc => by linarith)
    · refine iff_of_false (by simp) (fun hc => by linarith)
    · refine iff_of_false (by simp) (fun hc => absurd hc (not_lt.mpr h3))
    · exact iff_of_true rfl (not_le.mp h3)
  have habs : disagreeable_weight .absent = 1/2 := by
    show max 0 (min 1 (1/2)) = 1/2
    rw [min_eq_right (by norm_num : (1:ℚ)/2 ≤ 1),
        max_eq_right (by norm_num : (0:ℚ) ≤ 1/2)]
  have hb12 : bucketOf (1/2) = 1 := by
    unfold bucketOf
    rw [if_neg (by norm_num), if_pos (by norm_num)]
  refine ⟨?_, hdesc, ?_, fun w => ⟨b0 w, b1 w, b2 w, b3 w⟩, fun q => rfl,
    ?_, habs, rfl, hb12, fun m => hdesc _, ?_, ?_⟩
  · intro w₁ w₂ h
    unfold bucketOf
    split_ifs <;> first | omega | linarith
  · intro w; unfold bucketOf; split_ifs <;> omega
  · intro m
    cases m with
    | absent =>
      rw [habs]; constructor <;> norm_num
    | numeric q =>
      exact ⟨le_max_left 0 (min 1 q), max_le (by norm_num) (min_le_left 1 q)⟩
    | nonNumeric => constructor <;> norm_num [disagreeable_weight]
  · show bucketOf (max 0 (min 1 2)) = 3
    rw [min_eq_left (by norm_num : (1:ℚ) ≤ 2),
        max_eq_right (by norm_num : (0:ℚ) ≤ 1)]
    unfold bucketOf
    rw [if_neg (by norm_num), if_neg (by norm_num), if_neg (by norm_num)]
  · show bucketOf (max 0 (min 1 (-1))) = 0
    rw [min_eq_right (by norm_num : (-1:ℚ) ≤ 1),
        max_eq_left (by norm_num : (-1:ℚ) ≤ 0)]
    unfold bucketOf
    rw [if_pos (by norm_num)]

/-- C5 witness: the monotonicity instance at 0 ≤ 1. -/
theorem disposition_spec_witness : bucketOf 0 ≤ bucketOf 1 :=
  disposition_spec.1 0 1 zero_le_one

/-- C6: the turn engine persists exactly one history-store append per
call, whose content is derived from the fully obtained backend reply;
when the backend call fails, the failure propagates unchanged and no
store append and no in-memory history update occurs. -/
theorem generate_response_persistence (ctx : PersonaContext) (input : Str)
    (io : Bool) (rp : Option (List Str)) (tc ic : Str) :
    (∀ e : Str,
      generate_response_for_persona ctx input io rp tc ic (.error e)
        = (.error e, []))
  ∧ (∀ raw : Str,
      generate_response_for_persona ctx input io rp tc ic (.ok raw)
        = (.ok ((extract_thinking raw).1, (extract_thinking raw).2,
            ctx.history ++ [⟨.user, input⟩, ⟨.assistant, (extract_thinking raw).2⟩]),
           [⟨ctx.redis_key, input, (extract_thinking raw).2⟩])) :=
  ⟨fun _ => rfl, fun _ => rfl⟩

/-- The character list spelled by `openTag` is `"<think>"`. -/
theorem openTag_eq : openTag = "<think>".toList := by decide

/-- The character list spelled by `closeTag` is `"</think>"`. -/
theorem closeTag_eq : closeTag = "</think>".toList := by decide

/-- A list is a Boolean prefix of itself followed by anything. -/
theorem isPrefixOf_refl_append (l t : Str) : l.isPrefixOf (l ++ t) = true := by
  induction l with
  | nil => simp
  | cons a as _ => simp

/-- A Boolean prefix is no longer than the list. -/
theorem length_le_of_isPrefixOf {pat s : Str} (h : pat.isPrefixOf s = true) :
    pat.length ≤ s.length := by
  induction pat generalizing s with
  | nil => simp
  | cons a as ih =>
    cases s with
    | nil => simp at h
    | cons b bs =>
      rw [List.isPrefixOf_cons₂] at h
      simp only [Bool.and_eq_true] at h
      simpa using ih h.2

/-- A Boolean prefix followed by the corresponding drop reassembles the
list. -/
theorem append_drop_of_isPrefixOf {pat s : Str} (h : pat.isPrefixOf s = true) :
    pat ++ s.drop pat.length = s := by
  induction pat generalizing s with
  | nil => simp
  | cons a as ih =>
    cases s with
    | nil => simp at h
    | cons b bs =>
      rw [List.isPrefixOf_cons₂] at h
      simp only [Bool.and_eq_true, beq_iff_eq] at h
      obtain ⟨rfl, h2⟩ := h
      simpa using ih h2

/-- Appending on the right cannot change prefix status when the pattern
already fits inside the left part. -/
theorem isPrefixOf_append_stable {pat s : Str} (t : Str)
    (hle : pat.length ≤ s.length) :
    pat.isPrefixOf (s ++ t) = pat.isPrefixOf s := by
  induction pat generalizing s with
  | nil => simp
  | cons a as ih =>
    cases s with
    | nil => simp at hle
    | cons b bs =>
      have hle' : as.length ≤ bs.length := by simpa using hle
      simp only [List.cons_append, List.isPrefixOf_cons₂]
      rw [ih hle']

/-- With an empty pattern, `splitFirst` splits at position 0. -/
theorem splitFirst_nil_pat (t : Str) : splitFirst [] t = some ([], t) := by
  cases t <;> simp [splitFirst]

/-- A successful `splitFirst` is a decomposition of the input. -/
theorem splitFirst_eq_append {pat : Str} :
    ∀ {s a b : Str}, splitFirst pat s = some (a, b) → s = a ++ pat ++ b := by
  intro s
  induction s with
  | nil =>
    intro a b h
    cases pat with
    | nil =>
      simp [splitFirst] at h
      obtain ⟨rfl, rfl⟩ := h
      rfl
    | cons p ps => simp [splitFirst] at h
  | cons c cs ih =>
    intro a b h
    by_cases hpre : pat.isPrefixOf (c :: cs) = true
    · simp only [splitFirst, hpre, if_true, Option.some.injEq, Prod.mk.injEq] at h
      obtain ⟨ha, hb⟩ := h
      subst ha; subst hb
      simpa using (append_drop_of_isPrefixOf hpre).symm
    · have hb : pat.isPrefixOf (c :: cs) = false := by
        rw [← Bool.not_eq_true]; exact hpre
      simp only [splitFirst, hb, Bool.false_eq_true, if_false] at h
      rw [Option.map_eq_some'] at h
      obtain ⟨⟨a', b'⟩, hsp, hf⟩ := h
      simp only [Prod.mk.injEq] at hf
      obtain ⟨ha, hb'⟩ := hf
      subst ha; subst hb'
      simp [ih hsp]

/-- A successful `splitFirst` survives appending on the right: the first
occurrence stays the first occurrence. -/
theorem splitFirst_append {pat : Str} :
    ∀ {s : Str} (t : Str) {a b : Str}, splitFirst pat s = some (a, b) →
      splitFirst pat (s ++ t) = some (a, b ++ t) := by
  intro s
  induction s with
  | nil =>
    intro t a b h
    cases pat with
    | nil =>
      simp [splitFirst] at h
      obtain ⟨rfl, rfl⟩ := h
      simpa using splitFirst_nil_pat t
    | cons p ps => simp [splitFirst] at h
  | cons c cs ih =>
    intro t a b h
    by_cases hpre : pat.isPrefixOf (c :: cs) = true
    · simp only [splitFirst, hpre, if_true, Option.some.injEq, Prod.mk.injEq] at h
      obtain ⟨ha, hb⟩ := h
      subst ha; subst hb
      have hle : pat.length ≤ (c :: cs).length := length_le_of_isPrefixOf hpre
      have hpre' : pat.isPrefixOf ((c :: cs) ++ t) = true := by
        rw [isPrefixOf_append_stable t hle]; exact hpre
      have hdrop : ((c :: cs) ++ t).drop pat.length
          = (c :: cs).drop pat.length ++ t := List.drop_append_of_le_length hle
      simp only [List.cons_append, splitFirst, List.append_eq] at hpre' ⊢
      simp only [hpre', if_true, Option.some.injEq, Prod.mk.injEq]
      exact ⟨trivial, by simpa using hdrop⟩
    · have hb0 : pat.isPrefixOf (c :: cs) = false := by
        rw [← Bool.not_eq_true]; exact hpre
      simp only [splitFirst, hb0, Bool.false_eq_true, if_false] at h
      rw [Option.map_eq_some'] at h
      obtain ⟨⟨a', b'⟩, hsp, hf⟩ := h
      simp only [Prod.mk.injEq] at hf
      obtain ⟨ha, hb'⟩ := hf
      subst ha; subst hb'
      have hlen : pat.length ≤ cs.length := by
        have := splitFirst_eq_append hsp
        subst this
        simp only [List.length_append]
        omega
      have hb1 : pat.isPrefixOf ((c :: cs) ++ t) = false := by
        rw [isPrefixOf_append_stable t (by simpa using Nat.le_succ_of_le hlen)]
        exact hb0
      simp only [List.cons_append, splitFirst, List.append_eq] at hb1 ⊢
      simp only [hb1, Bool.false_eq_true, if_false]
      rw [ih t hsp]
      rfl

/-- Occurrence in a tail, shifted by one. -/
theorem occursAt_cons {pat : Str} {c : Char} {s : Str} {j : Nat} :
    occursAt pat (c :: s) (j + 1) ↔ occursAt pat s j := by
  rw [occursAt, occursAt, List.drop_succ_cons]

/-- Occurrence at index 0 is the Boolean prefix test. -/
theorem occursAt_zero {pat s : Str} :
    occursAt pat s 0 ↔ pat.isPrefixOf s = true := by
  rw [occursAt, List.drop_zero]

/-- A nonempty pattern can only occur inside the list. -/
theorem occursAt_lt_length {pat s : Str} {i : Nat} (hpat : pat ≠ [])
    (h : occursAt pat s i) : i < s.length := by
  by_contra hge
  push_neg at hge
  rw [occursAt, List.drop_eq_nil_of_le hge] at h
  cases pat with
  | nil => exact hpat rfl
  | cons p ps => simp at h

/-- The pattern occurs at the seam of an explicit decomposition. -/
theorem occursAt_at_append (a pat b : Str) :
    occursAt pat (a ++ pat ++ b) a.length := by
  rw [occursAt]
  rw [show (a ++ pat ++ b).drop a.length = pat ++ b by
    rw [List.append_assoc, List.drop_left]]
  exact isPrefixOf_refl_append pat b

/-- Occurrence shifts across a prepended block. -/
theorem occursAt_append_shift {pat u v : Str} {j : Nat}
    (h : occursAt pat v j) : occursAt pat (u ++ v) (u.length + j) := by
  rw [occursAt] at h ⊢
  rw [show (u ++ v).drop (u.length + j) = v.drop j by
    rw [← List.drop_drop, List.drop_left]]
  exact h

/-- Reduction of `splitFirst` on a cons cell whose head matches. -/
theorem splitFirst_cons_pos {pat : Str} {c : Char} {cs : Str}
    (h : pat.isPrefixOf (c :: cs) = true) :
    splitFirst pat (c :: cs) = some ([], (c :: cs).drop pat.length) := by
  simp [splitFirst, h]

/-- Reduction of `splitFirst` on a cons cell whose head does not match. -/
theorem splitFirst_cons_neg {pat : Str} {c : Char} {cs : Str}
    (h : pat.isPrefixOf (c :: cs) = false) :
    splitFirst pat (c :: cs)
      = (splitFirst pat cs).map (fun p => (c :: p.1, p.2)) := by
  simp [splitFirst, h]

/-- A decomposition whose seam is the leftmost occurrence is what
`splitFirst` returns. -/
theorem splitFirst_min {pat : Str} :
    ∀ {a b : Str}, (∀ j, j < a.length → ¬ occursAt pat (a ++ pat ++ b) j) →
      splitFirst pat (a ++ pat ++ b) = some (a, b) := by
  intro a
  induction a with
  | nil =>
    intro b _
    cases pat with
    | nil => simpa using splitFirst_nil_pat b
    | cons p ps =>
      have hpre : (p :: ps).isPrefixOf ((p :: ps) ++ b) = true :=
        isPrefixOf_refl_append _ _
      have hpos := splitFirst_cons_pos hpre
      simp only [List.nil_append]
      exact hpos.trans (by
        rw [show p :: ps.append b = (p :: ps) ++ b from rfl, List.drop_left])
  | cons x a' ih =>
    intro b h
    have hnot : pat.isPrefixOf (x :: (a' ++ pat ++ b)) = false := by
      rw [← Bool.not_eq_true]
      intro hc
      exact h 0 (by simp) (by rw [occursAt, List.drop_zero]; exact hc)
    have h' : ∀ j, j < a'.length → ¬ occursAt pat (a' ++ pat ++ b) j := by
      intro j hj hc
      exact h (j + 1) (by simpa using Nat.succ_lt_succ hj) (occursAt_cons.mpr hc)
    have hneg := splitFirst_cons_neg hnot
    calc splitFirst pat ((x :: a') ++ pat ++ b)
        = (splitFirst pat (a' ++ pat ++ b)).map (fun p => (x :: p.1, p.2)) := hneg
      _ = some (x :: a', b) := by rw [ih h']; rfl

/-- When the pattern never occurs, `splitFirst` finds nothing. -/
theorem splitFirst_of_no_occurrence {pat : Str} :
    ∀ {s : Str}, (∀ j, ¬ occursAt pat s j) → splitFirst pat s = none := by
  intro s
  induction s with
  | nil =>
    intro h
    cases pat with
    | nil => exact absurd (by rw [occursAt]; simp) (h 0)
    | cons p ps => simp [splitFirst]
  | cons c cs ih =>
    intro h
    have h0 : pat.isPrefixOf (c :: cs) = false := by
      rw [← Bool.not_eq_true]
      intro hc
      exact h 0 (by rw [occursAt, List.drop_zero]; exact hc)
    rw [splitFirst_cons_neg h0, ih (fun j hc => h (j + 1) (occursAt_cons.mpr hc))]
    rfl

/-- Any occurrence makes `splitFirst` succeed. -/
theorem splitFirst_isSome_of_occursAt {pat : Str} :
    ∀ {s : Str} {j : Nat}, occursAt pat s j → (splitFirst pat s).isSome = true := by
  intro s
  induction s with
  | nil =>
    intro j h
    rw [occursAt] at h
    cases pat with
    | nil => simp [splitFirst]
    | cons p ps => simp at h
  | cons c cs ih =>
    intro j h
    by_cases hp : pat.isPrefixOf (c :: cs) = true
    · rw [splitFirst_cons_pos hp]; rfl
    · have hp' : pat.isPrefixOf (c :: cs) = false := by
        rw [← Bool.not_eq_true]; exact hp
      rw [splitFirst_cons_neg hp']
      cases j with
      | zero =>
        rw [occursAt, List.drop_zero] at h
        exact absurd h hp
      | succ j' =>
        have := ih (occursAt_cons.mp h)
        cases hs : splitFirst pat cs with
        | none => rw [hs] at this; simp at this
        | some p => simp [hs]

/-- A zero occurrence count means the (nonempty) pattern never occurs. -/
theorem countOcc_zero_not_occursAt {pat s : Str} (hpat : pat ≠ [])
    (hc : countOcc pat s = 0) : ∀ j, ¬ occursAt pat s j := by
  intro j hj
  have hjl : j < s.length := occursAt_lt_length hpat hj
  exact List.countP_eq_zero.mp hc j (List.mem_range.mpr hjl) hj

/-- A count of one pins every occurrence to the known one. -/
theorem occursAt_unique {pat s : Str} {p : Nat} (hpat : pat ≠ [])
    (hc : countOcc pat s = 1) (hp : occursAt pat s p) :
    ∀ j, occursAt pat s j → j = p := by
  intro j hj
  have hpl := occursAt_lt_length hpat hp
  have hjl := occursAt_lt_length hpat hj
  have hfl : ((List.range s.length).filter
      (fun i => pat.isPrefixOf (s.drop i))).length = 1 := by
    rw [← List.countP_eq_length_filter]; exact hc
  obtain ⟨x, hx⟩ := List.length_eq_one.mp hfl
  have hpm : p ∈ (List.range s.length).filter
      (fun i => pat.isPrefixOf (s.drop i)) :=
    List.mem_filter.mpr ⟨List.mem_range.mpr hpl, hp⟩
  have hjm : j ∈ (List.range s.length).filter
      (fun i => pat.isPrefixOf (s.drop i)) :=
    List.mem_filter.mpr ⟨List.mem_range.mpr hjl, hj⟩
  rw [hx] at hpm hjm
  simp only [List.mem_singleton] at hpm hjm
  rw [hpm, hjm]

/-- Reduction of `thinkMatch`: open marker matches here and a close marker
follows. -/
theorem thinkMatch_cons_open {c : Char} {cs : Str}
    (h : openTag.isPrefixOf (c :: cs) = true) {b post : Str}
    (hs : splitFirst closeTag ((c :: cs).drop openTag.length) = some (b, post)) :
    thinkMatch (c :: cs) = some ([], b, post) := by
  simp [thinkMatch, h, hs]

/-- Reduction of `thinkMatch`: open marker matches here but no close marker
follows, so the scan advances. -/
theorem thinkMatch_cons_open_noclose {c : Char} {cs : Str}
    (h : openTag.isPrefixOf (c :: cs) = true)
    (hs : splitFirst closeTag ((c :: cs).drop openTag.length) = none) :
    thinkMatch (c :: cs)
      = (thinkMatch cs).map (fun r => (c :: r.1, r.2.1, r.2.2)) := by
  simp [thinkMatch, h, hs]

/-- Reduction of `thinkMatch`: open marker does not match here. -/
theorem thinkMatch_cons_notopen {c : Char} {cs : Str}
    (h : openTag.isPrefixOf (c :: cs) = false) :
    thinkMatch (c :: cs)
      = (thinkMatch cs).map (fun r => (c :: r.1, r.2.1, r.2.2)) := by
  simp [thinkMatch, h]

/-- Completeness: `thinkMatch` finds a decomposition whose opening marker is the
leftmost usable one and whose interior ends at the first close marker. -/
theorem thinkMatch_some : ∀ {pre B post : Str},
    (∀ j, j < pre.length →
      ¬ occursAt openTag (pre ++ openTag ++ B ++ closeTag ++ post) j) →
    (∀ j, j < B.length → ¬ occursAt closeTag (B ++ closeTag ++ post) j) →
    thinkMatch (pre ++ openTag ++ B ++ closeTag ++ post)
      = some (pre, B, post) := by
  intro pre
  induction pre with
  | nil =>
    intro B post _ h2
    have hT : ([] : Str) ++ openTag ++ B ++ closeTag ++ post
        = openTag ++ (B ++ closeTag ++ post) := by
      simp [List.append_assoc]
    rw [hT]
    have hpre : openTag.isPrefixOf (openTag ++ (B ++ closeTag ++ post)) = true :=
      isPrefixOf_refl_append _ _
    have hsp : splitFirst closeTag
        ((openTag ++ (B ++ closeTag ++ post)).drop openTag.length)
        = some (B, post) := by
      rw [List.drop_left]
      exact splitFirst_min h2
    exact thinkMatch_cons_open hpre hsp
  | cons x pre' ih =>
    intro B post h1 h2
    have hT : (x :: pre') ++ openTag ++ B ++ closeTag ++ post
        = x :: (pre' ++ openTag ++ B ++ closeTag ++ post) := by
      simp
    rw [hT]
    have h0 : openTag.isPrefixOf
        (x :: (pre' ++ openTag ++ B ++ closeTag ++ post)) = false := by
      rw [← Bool.not_eq_true]
      intro hc
      refine h1 0 (by simp) ?_
      rw [hT, occursAt, List.drop_zero]
      exact hc
    have h1' : ∀ j, j < pre'.length →
        ¬ occursAt openTag (pre' ++ openTag ++ B ++ closeTag ++ post) j := by
      intro j hj hc
      refine h1 (j + 1) (by simpa using Nat.succ_lt_succ hj) ?_
      rw [hT]
      exact occursAt_cons.mpr hc
    rw [thinkMatch_cons_notopen h0, ih h1' h2]
    rfl

/-- Without any close marker there is no `thinkMatch`. -/
theorem thinkMatch_none : ∀ {s : Str},
    (∀ j, ¬ occursAt closeTag s j) → thinkMatch s = none := by
  intro s
  induction s with
  | nil => intro _; rfl
  | cons c cs ih =>
    intro h
    have hrec : thinkMatch cs = none :=
      ih (fun j hc => h (j + 1) (occursAt_cons.mpr hc))
    by_cases hp : openTag.isPrefixOf (c :: cs) = true
    · have hsp : splitFirst closeTag ((c :: cs).drop openTag.length) = none := by
        refine splitFirst_of_no_occurrence ?_
        intro j hc
        refine h (openTag.length + j) ?_
        rw [occursAt] at hc ⊢
        rw [List.drop_drop] at hc
        exact hc
      rw [thinkMatch_cons_open_noclose hp hsp, hrec]
      rfl
    · have hp' : openTag.isPrefixOf (c :: cs) = false := by
        rw [← Bool.not_eq_true]; exact hp
      rw [thinkMatch_cons_notopen hp', hrec]
      rfl

/-- C4: `extract_thinking` on a text with exactly one marker-delimited
block returns the interior trimmed together with the text around the
whole block trimmed; with no markers it returns empty thoughts and the
trimmed text; an empty interior yields empty thoughts and the remainder. -/
theorem extract_thinking_spec :
    (∀ pre B post : Str,
      countOcc openTag (pre ++ openTag ++ B ++ closeTag ++ post) = 1 →
      countOcc closeTag (pre ++ openTag ++ B ++ closeTag ++ post) = 1 →
      extract_thinking (pre ++ openTag ++ B ++ closeTag ++ post)
        = (pyStrip B, pyStrip (pre ++ post)))
  ∧ (∀ T : Str, countOcc openTag T = 0 → countOcc closeTag T = 0 →
      extract_thinking T = ([], pyStrip T))
  ∧ (∀ pre post : Str,
      countOcc openTag (pre ++ openTag ++ closeTag ++ post) = 1 →
      countOcc closeTag (pre ++ openTag ++ closeTag ++ post) = 1 →
      extract_thinking (pre ++ openTag ++ closeTag ++ post)
        = ([], pyStrip (pre ++ post))) := by
  have hopen_ne : openTag ≠ [] := by decide
  have hclose_ne : closeTag ≠ [] := by decide
  have main : ∀ pre B post : Str,
      countOcc openTag (pre ++ openTag ++ B ++ closeTag ++ post) = 1 →
      countOcc closeTag (pre ++ openTag ++ B ++ closeTag ++ post) = 1 →
      extract_thinking (pre ++ openTag ++ B ++ closeTag ++ post)
        = (pyStrip B, pyStrip (pre ++ post)) := by
    intro pre B post hco hcc
    have hTo : (pre ++ openTag) ++ (B ++ closeTag ++ post)
        = pre ++ openTag ++ B ++ closeTag ++ post := by
      simp [List.append_assoc]
    have hTc : ((pre ++ openTag ++ B) ++ closeTag) ++ post
        = pre ++ openTag ++ B ++ closeTag ++ post := by
      simp [List.append_assoc]
    have hoccO : occursAt openTag
        (pre ++ openTag ++ B ++ closeTag ++ post) pre.length := by
      have := occursAt_at_append pre openTag (B ++ closeTag ++ post)
      rwa [hTo] at this
    have hoccC : occursAt closeTag
        (pre ++ openTag ++ B ++ closeTag ++ post)
        (pre ++ openTag ++ B).length := by
      have := occursAt_at_append (pre ++ openTag ++ B) closeTag post
      rwa [hTc] at this
    have huO := occursAt_unique hopen_ne hco hoccO
    have huC := occursAt_unique hclose_ne hcc hoccC
    have h1 : ∀ j, j < pre.length →
        ¬ occursAt openTag (pre ++ openTag ++ B ++ closeTag ++ post) j := by
      intro j hj hc
      exact absurd (huO j hc) (Nat.ne_of_lt hj)
    have h2 : ∀ j, j < B.length →
        ¬ occursAt closeTag (B ++ closeTag ++ post) j := by
      intro j hj hc
      have hshift : occursAt closeTag
          (pre ++ openTag ++ B ++ closeTag ++ post)
          ((pre ++ openTag).length + j) := by
        have := occursAt_append_shift (u := pre ++ openTag) hc
        rwa [hTo] at this
      have := huC _ hshift
      simp only [List.length_append] at this
      omega
    rw [extract_thinking, thinkMatch_some h1 h2]
  refine ⟨main, ?_, ?_⟩
  · intro T ho hc
    have hnoc : ∀ j, ¬ occursAt closeTag T j :=
      countOcc_zero_not_occursAt hclose_ne hc
    rw [extract_thinking, thinkMatch_none hnoc]
  · intro pre post h1 h2
    have heq : pre ++ openTag ++ ([] : Str) ++ closeTag ++ post
        = pre ++ openTag ++ closeTag ++ post := by simp
    have := main pre [] post (by rw [heq]; exact h1) (by rw [heq]; exact h2)
    rw [heq] at this
    simpa [pyStrip] using this

/-- C4 witness: one block with interior `hm` inside surrounding text. -/
theorem extract_thinking_spec_witness :
    extract_thinking ("x <think> hm </think> y".toList)
      = ("hm".toList, "x  y".toList) := by
  have h := extract_thinking_spec.1 "x ".toList " hm ".toList " y".toList
    (by decide) (by decide)
  have heq : "x ".toList ++ openTag ++ " hm ".toList ++ closeTag ++ " y".toList
      = "x <think> hm </think> y".toList := by decide
  rw [heq] at h
  exact h.trans (by decide)

/-- Each streaming step extends the accumulated raw text by the token. -/
theorem stream_step_raw (acc : StreamAcc) (t : Str) :
    (stream_step acc t).raw = acc.raw ++ t := by
  rcases acc with ⟨raw, closed, em⟩
  cases closed
  · simp only [stream_step, Bool.false_eq_true, if_false]
    cases hsp : splitFirst closeTag (raw ++ t) <;> simp [hsp]
  · simp [stream_step]

/-- The streaming loop's invariant: the `thinking_closed` flag tracks
whether the close marker has appeared, and the concatenation of
everything passed to `on_token` is exactly the part of the accumulated
text after the first close marker. -/
def StreamInv (acc : StreamAcc) : Prop :=
  acc.thinking_closed = (splitFirst closeTag acc.raw).isSome ∧
  acc.emitted.flatten = afterFirst closeTag acc.raw

/-- One streaming step preserves the invariant. -/
theorem stream_step_inv {acc : StreamAcc} (h : StreamInv acc) (t : Str) :
    StreamInv (stream_step acc t) := by
  obtain ⟨h1, h2⟩ := h
  rcases acc with ⟨raw, closed, em⟩
  simp only at h1 h2
  cases closed
  · have hn : splitFirst closeTag raw = none := by
      cases hs : splitFirst closeTag raw with
      | none => rfl
      | some p => rw [hs] at h1; simp at h1
    have h2' : em.flatten = [] := by
      rw [h2]; simp [afterFirst, hn]
    simp only [stream_step, Bool.false_eq_true, if_false]
    cases hsp : splitFirst closeTag (raw ++ t) with
    | none =>
      exact ⟨by simp [hsp], by simp [h2', afterFirst, hsp]⟩
    | some p =>
      obtain ⟨a, b⟩ := p
      refine ⟨by simp [hsp], ?_⟩
      by_cases hb : b.isEmpty
      · have hbn : b = [] := by simpa using hb
        simp [hb, h2', afterFirst, hsp, hbn]
      · have hbn : b.isEmpty = false := by
          rw [← Bool.not_eq_true]; exact hb
        simp [hbn, h2', afterFirst, hsp]
  · obtain ⟨⟨a, b⟩, hsp⟩ :=
      Option.isSome_iff_exists.mp h1.symm
    have hsp' : splitFirst closeTag (raw ++ t) = some (a, b ++ t) :=
      splitFirst_append t hsp
    refine ⟨by simp [stream_step, hsp'], ?_⟩
    simp [stream_step, afterFirst, hsp, hsp', h2]

/-- The invariant holds along any fold of streaming steps. -/
theorem stream_foldl_inv : ∀ (chunks : List Str) (acc : StreamAcc),
    StreamInv acc → StreamInv (chunks.foldl stream_step acc) := by
  intro chunks
  induction chunks with
  | nil => intro acc h; exact h
  | cons t ts ih =>
    intro acc h
    exact ih _ (stream_step_inv h t)

/-- The fold accumulates the concatenation of all chunks. -/
theorem stream_foldl_raw : ∀ (chunks : List Str) (acc : StreamAcc),
    (chunks.foldl stream_step acc).raw = acc.raw ++ chunks.flatten := by
  intro chunks
  induction chunks with
  | nil => intro acc; simp
  | cons t ts ih =>
    intro acc
    rw [List.foldl_cons, ih, stream_step_raw]
    simp

/-- C7: in the streaming path, the concatenation of everything forwarded
to `on_token` is exactly the part of the full accumulated reply after the
first `</think>` marker — nothing at or before the marker is ever passed
to the callback. -/
theorem stream_visible_spec (chunks : List Str) :
    (stream_fold chunks).raw = chunks.flatten
  ∧ (stream_fold chunks).emitted.flatten = afterFirst closeTag chunks.flatten := by
  have hinv0 : StreamInv ⟨[], false, []⟩ := by
    constructor
    · have : splitFirst closeTag [] = none := by decide
      simp [this]
    · simp [afterFirst, show splitFirst closeTag [] = none by decide]
  have hraw : (stream_fold chunks).raw = chunks.flatten := by
    rw [stream_fold, stream_foldl_raw]
    rfl
  have hinv := stream_foldl_inv chunks _ hinv0
  refine ⟨hraw, ?_⟩
  rw [stream_fold, hinv.2, stream_foldl_raw]
  rfl

/-- A never-closed fold pass through marker-free text emits nothing. -/
theorem stream_foldl_no_marker : ∀ (chunks : List Str) (acc : StreamAcc),
    acc.thinking_closed = false → acc.emitted = [] →
    splitFirst closeTag (acc.raw ++ chunks.flatten) = none →
    (chunks.foldl stream_step acc).emitted = [] := by
  intro chunks
  induction chunks with
  | nil => intro acc _ he _; exact he
  | cons t ts ih =>
    intro acc hc he hn
    rcases acc with ⟨raw, closed, em⟩
    simp only at hc he
    subst hc; subst he
    have hstep : splitFirst closeTag (raw ++ t) = none := by
      cases hs : splitFirst closeTag (raw ++ t) with
      | none => rfl
      | some p =>
        obtain ⟨a, b⟩ := p
        have := splitFirst_append ts.flatten hs
        rw [show (raw ++ t) ++ ts.flatten = raw ++ (t :: ts).flatten by
          simp [List.append_assoc]] at this
        rw [this] at hn
        cases hn
    rw [List.foldl_cons]
    refine ih _ ?_ ?_ ?_
    · simp [stream_step, hstep]
    · simp [stream_step, hstep]
    · rw [stream_step_raw]
      simp only []
      rw [show (raw ++ t) ++ ts.flatten = raw ++ (t :: ts).flatten by
        simp [List.append_assoc]]
      exact hn

/-- C10: when the full reply contains no `</think>` marker the streaming
callback is never invoked at all, yet extraction treats the entire reply
as the visible response with empty thoughts — so the streamed display
(empty) and the recorded visible reply can diverge, e.g. on the reply
`hi`. -/
theorem stream_no_marker_divergence (chunks : List Str)
    (h : splitFirst closeTag chunks.flatten = none) :
    (stream_fold chunks).emitted = []
  ∧ extract_thinking chunks.flatten = ([], pyStrip chunks.flatten)
  ∧ ((stream_fold ["hi".toList]).emitted = []
      ∧ (extract_thinking "hi".toList).2 = "hi".toList) := by
  refine ⟨?_, ?_, by decide⟩
  · rw [stream_fold]
    refine stream_foldl_no_marker chunks ⟨[], false, []⟩ rfl rfl ?_
    simpa using h
  · have hnoc : ∀ j, ¬ occursAt closeTag chunks.flatten j := by
      intro j hj
      have := splitFirst_isSome_of_occursAt hj
      rw [h] at this
      cases this
    rw [extract_thinking, thinkMatch_none hnoc]

/-- C10 witness: two marker-free chunks. -/
theorem stream_no_marker_divergence_witness :
    (stream_fold ["hello ".toList, "world".toList]).emitted = []
  ∧ extract_thinking ("hello ".toList ++ "world".toList ++ [])
      = ([], "hello world".toList) := by
  have h := stream_no_marker_divergence ["hello ".toList, "world".toList]
    (by decide)
  exact ⟨h.1, by
    have := h.2.1
    exact (by decide :
        ("hello ".toList ++ "world".toList ++ ([] : Str))
          = (["hello ".toList, "world".toList] : List Str).flatten) ▸ this |>.trans
      (by decide)⟩

/-- Reduction of `personaGet` on a cons cell. -/
theorem personaGet_cons (k0 : Str) (v0 : PersonaContext)
    (rest : List (Str × PersonaContext)) (k' : Str) :
    personaGet ((k0, v0) :: rest) k'
      = if k0 = k' then some v0 else personaGet rest k' := by
  by_cases h : k0 = k'
  · have hb : (k0 == k') = true := beq_iff_eq.mpr h
    simp [personaGet, List.find?, hb, h]
  · have hb : (k0 == k') = false := beq_eq_false_iff_ne.mpr h
    simp [personaGet, List.find?, hb, h]

/-- Dict assignment then lookup. -/
theorem personaGet_assocSet (m : List (Str × PersonaContext)) (k k' : Str)
    (v : PersonaContext) :
    personaGet (assocSet m k v) k'
      = if k' = k then some v else personaGet m k' := by
  induction m with
  | nil =>
    by_cases h : k' = k
    · subst h
      simp [assocSet, personaGet_cons, personaGet]
    · have h' : k ≠ k' := fun e => h e.symm
      simp [assocSet, personaGet_cons, personaGet, h, h']
  | cons hd rest ih =>
    obtain ⟨k0, v0⟩ := hd
    by_cases h0 : k0 = k
    · have hb : (k0 == k) = true := beq_iff_eq.mpr h0
      simp only [assocSet, hb, if_true]
      subst h0
      by_cases h' : k' = k0
      · subst h'
        simp [personaGet_cons]
      · have h'' : k0 ≠ k' := fun e => h' e.symm
        simp [personaGet_cons, h', h'']
    · have hb : (k0 == k) = false := beq_eq_false_iff_ne.mpr h0
      simp only [assocSet, hb, Bool.false_eq_true, if_false]
      rw [personaGet_cons, personaGet_cons, ih]
      by_cases hh : k0 = k'
      · have hk' : ¬ k' = k := by
          subst hh; exact fun e => h0 e
        simp [hh, hk']
      · by_cases hkk : k' = k <;> simp [hh, hkk, h0]

/-- Presence of a key survives dict assignment. -/
theorem personaGet_assocSet_isSome {m : List (Str × PersonaContext)}
    {k' : Str} (h : (personaGet m k').isSome = true) (k : Str)
    (v : PersonaContext) :
    (personaGet (assocSet m k v) k').isSome = true := by
  rw [personaGet_assocSet]
  by_cases hk : k' = k <;> simp [hk, h]

/-- A reply outcome carries its thoughts and response. -/
theorem isReply_exists {o : Outcome} (h : o.isReply = true) :
    ∃ th resp, o = .reply th resp := by
  cases o with
  | reply a b => exact ⟨a, b, rfl⟩
  | interrupt => simp [Outcome.isReply] at h

/-- A dialogue turn whose persona is present and whose generation call
replies continues the loop: one transcript entry is appended, one
generation call is consumed, and every present persona stays present. -/
theorem obsTurn_cont (oracle : Nat → Outcome) (A : List Str)
    (sl seed : Str) (st : ObsSt) (k : Str)
    (hk : (personaGet st.room.personas k).isSome = true)
    (hr : (oracle st.idx).isReply = true) :
    ∃ st', obsTurn oracle A sl seed st k = .cont st'
      ∧ st'.room.full_log.length = st.room.full_log.length + 1
      ∧ st'.idx = st.idx + 1
      ∧ (∀ k', (personaGet st.room.personas k').isSome = true →
          (personaGet st'.room.personas k').isSome = true) := by
  obtain ⟨ctx, hctx⟩ := Option.isSome_iff_exists.mp hk
  obtain ⟨th, resp, ho⟩ := isReply_exists hr
  have heq : obsTurn oracle A sl seed st k
      = .cont (obsTurnResult A sl seed st k ctx th resp) := by
    simp only [obsTurn, hctx, ho]
  refine ⟨_, heq, ?_, ?_, ?_⟩
  · simp [obsTurnResult, append_log]
  · rfl
  · intro k' h'
    simp only [obsTurnResult, append_log]
    exact personaGet_assocSet_isSome h' _ _

/-- A full pass over present personas with replying generation calls:
one entry and one call per persona. -/
theorem obsPass_cont (oracle : Nat → Outcome) (A : List Str) (sl seed : Str) :
    ∀ (sub : List Str) (st : ObsSt),
      (∀ k, k ∈ sub → (personaGet st.room.personas k).isSome = true) →
      (∀ i, (oracle i).isReply = true) →
      ∃ st', obsPass oracle A sl seed st sub = .cont st'
        ∧ st'.room.full_log.length = st.room.full_log.length + sub.length
        ∧ st'.idx = st.idx + sub.length
        ∧ (∀ k', (personaGet st.room.personas k').isSome = true →
            (personaGet st'.room.personas k').isSome = true) := by
  intro sub
  induction sub with
  | nil =>
    intro st _ _
    exact ⟨st, rfl, by simp, by simp, fun _ h => h⟩
  | cons k ks ih =>
    intro st hp hr
    obtain ⟨st1, he1, hl1, hi1, hpres1⟩ :=
      obsTurn_cont oracle A sl seed st k (hp k (by simp)) (hr _)
    obtain ⟨st2, he2, hl2, hi2, hpres2⟩ :=
      ih st1 (fun k2 hk2 => hpres1 _ (hp k2 (by simp [hk2]))) hr
    refine ⟨st2, ?_, by simp only [List.length_cons]; omega,
      by simp only [List.length_cons]; omega,
      fun k' h => hpres2 _ (hpres1 _ h)⟩
    simp only [obsPass, he1]
    exact he2

/-- Running `n` rounds over present personas with replying generation calls. -/
theorem obsRounds_cont (oracle : Nat → Outcome) (A : List Str)
    (sl seed : Str) (keys : List Str) :
    ∀ (n : Nat) (st : ObsSt),
      (∀ k, k ∈ keys → (personaGet st.room.personas k).isSome = true) →
      (∀ i, (oracle i).isReply = true) →
      ∃ st', obsRounds oracle A sl seed keys st n = .cont st'
        ∧ st'.room.full_log.length
            = st.room.full_log.length + n * keys.length
        ∧ st'.idx = st.idx + n * keys.length
        ∧ (∀ k', (personaGet st.room.personas k').isSome = true →
            (personaGet st'.room.personas k').isSome = true) := by
  intro n
  induction n with
  | zero =>
    intro st _ _
    exact ⟨st, rfl, by simp, by simp, fun _ h => h⟩
  | succ n ih =>
    intro st hp hr
    obtain ⟨st1, he1, hl1, hi1, hpres1⟩ := obsPass_cont oracle A sl seed keys st hp hr
    obtain ⟨st2, he2, hl2, hi2, hpres2⟩ :=
      ih st1 (fun k2 hk2 => hpres1 _ (hp k2 hk2)) hr
    have hm : (n + 1) * keys.length = n * keys.length + keys.length :=
      Nat.succ_mul n keys.length
    refine ⟨st2, ?_, by omega, by omega, fun k' h => hpres2 _ (hpres1 _ h)⟩
    simp only [obsRounds, he1]
    exact he2

/-- The synthesis round over present personas with replying generation
calls: one entry and one call per persona. -/
theorem synthLoop_some (oracle : Nat → Outcome) (prompt : Str) :
    ∀ (sub : List Str) (st : ObsSt),
      (∀ k, k ∈ sub → (personaGet st.room.personas k).isSome = true) →
      (∀ i, (oracle i).isReply = true) →
      ∃ st', synthLoop oracle prompt st sub = some st'
        ∧ st'.room.full_log.length = st.room.full_log.length + sub.length
        ∧ st'.idx = st.idx + sub.length := by
  intro sub
  induction sub with
  | nil => intro st _ _; exact ⟨st, rfl, by simp, by simp⟩
  | cons k ks ih =>
    intro st hp hr
    obtain ⟨ctx, hctx⟩ := Option.isSome_iff_exists.mp (hp k (by simp))
    obtain ⟨th, resp, ho⟩ := isReply_exists (hr st.idx)
    obtain ⟨st2, he2, hl2, hi2⟩ := ih
      ⟨append_log { st.room with
          personas := assocSet st.room.personas k
            { ctx with history := ctx.history ++
                [⟨.user, prompt⟩, ⟨.assistant, resp⟩] } }
        (make_log_entry "persona".toList resp k ctx.name th),
       st.current_prompt, st.idx + 1⟩
      (fun k2 hk2 => by
        simp only [append_log]
        exact personaGet_assocSet_isSome (hp k2 (by simp [hk2])) _ _)
      hr
    refine ⟨st2, ?_, ?_, ?_⟩
    · simp only [synthLoop, hctx, ho]
      exact he2
    · rw [hl2]; simp [append_log]; omega
    · rw [hi2]; simp only [List.length_cons]; omega

/-- The observe loop tail on a two-key room when every generation call
replies: 4 dialogue entries, 2 synthesis entries, 6 calls. -/
theorem run_observe_loop_six (oracle : Nat → Outcome) (A : List Str)
    (sl seed : Str) (k1 k2 : Str) (st0 : ObsSt) (base : Nat)
    (h1 : (personaGet st0.room.personas k1).isSome = true)
    (h2 : (personaGet st0.room.personas k2).isSome = true)
    (hr : ∀ i, (oracle i).isReply = true)
    (hlog : st0.room.full_log.length = base + 1)
    (hidx : st0.idx = 0) :
    ∃ S', run_observe_loop oracle A sl seed [k1, k2] st0 2 = some (S', 6)
      ∧ S'.full_log.length = base + 7 := by
  have hpres0 : ∀ k, k ∈ [k1, k2] →
      (personaGet st0.room.personas k).isSome = true := by
    intro k hk
    rcases List.mem_cons.mp hk with rfl | hk'
    · exact h1
    · rcases List.mem_cons.mp hk' with rfl | hk''
      · exact h2
      · cases hk''
  obtain ⟨st4, he4, hl4, hi4, hp4⟩ :=
    obsRounds_cont oracle A sl seed [k1, k2] 2 st0 hpres0 hr
  simp only [run_observe_loop, he4]
  obtain ⟨st6, he6, hl6, hi6⟩ := synthLoop_some oracle
    (("[The observation is complete. The moderator now asks you directly: Based on everything discussed about ").toList ++
      st4.room.topic ++
      (", what specific offer, price point, bundle, or product version would actually work for you? Don\x27t generalise — give a concrete, honest answer the moderator can act on. What would make you say yes?]").toList)
    [k1, k2] st4 (fun k hk => hp4 _ (hpres0 k hk)) hr
  rw [he6]
  have hlen2 : ([k1, k2] : List Str).length = 2 := rfl
  rw [hlen2] at hl4 hi4 hl6 hi6
  refine ⟨st6.room, ?_, by omega⟩
  show some (st6.room, st6.idx) = some (st6.room, 6)
  have hidx6 : st6.idx = 6 := by omega
  rw [hidx6]

/-- The observe loop tail on a two-key room interrupted during the second
generation call: the completed first dialogue entry is kept, synthesis is
skipped. -/
theorem run_observe_loop_stop (oracle : Nat → Outcome) (A : List Str)
    (sl seed : Str) (k1 k2 : Str) (st0 : ObsSt) (base : Nat)
    (h1 : (personaGet st0.room.personas k1).isSome = true)
    (h2 : (personaGet st0.room.personas k2).isSome = true)
    (hr0 : (oracle st0.idx).isReply = true)
    (hr1 : oracle (st0.idx + 1) = .interrupt)
    (hlog : st0.room.full_log.length = base + 1)
    (hidx : st0.idx = 0) :
    ∃ S', run_observe_loop oracle A sl seed [k1, k2] st0 2 = some (S', 1)
      ∧ S'.full_log.length = base + 2 := by
  obtain ⟨st1, he1, hl1, hi1, hp1⟩ :=
    obsTurn_cont oracle A sl seed st0 k1 h1 hr0
  obtain ⟨ctx2, hc2⟩ := Option.isSome_iff_exists.mp (hp1 _ h2)
  have hint : oracle st1.idx = .interrupt := by
    rw [hi1]; exact hr1
  have he2 : obsTurn oracle A sl seed st1 k2 = .stopped st1 := by
    simp only [obsTurn, hc2, hint]
  have hpass : obsPass oracle A sl seed st0 [k1, k2] = .stopped st1 := by
    simp only [obsPass, he1, he2]
  have hrounds : obsRounds oracle A sl seed [k1, k2] st0 2 = .stopped st1 := by
    rw [show (2 : Nat) = 1 + 1 from rfl]
    simp only [obsRounds, hpass]
  simp only [run_observe_loop, hrounds]
  refine ⟨st1.room, ?_, by omega⟩
  show some (st1.room, st1.idx) = some (st1.room, 1)
  have hidx1 : st1.idx = 1 := by omega
  rw [hidx1]

/-- C8 counterexample: on a concrete two-participant room with rounds=2,
a normally completing observe run grows the transcript by 7 entries, not
6 (the run also appends a system "Observing" note before the dialogue),
and an interruption after the first completed dialogue turn grows it by
2 entries, not 1. -/
theorem run_observe_entry_count_counterexample :
    ((run_observe roomTwo [] 2 oracleOk).map
        (fun p => p.1.full_log.length) = some 7)
  ∧ ((run_observe roomTwo [] 2 oracleOk).map
        (fun p => p.1.full_log.length) ≠ some 6)
  ∧ ((run_observe roomTwo [] 2 oracleStop1).map
        (fun p => p.1.full_log.length) = some 2)
  ∧ ((run_observe roomTwo [] 2 oracleStop1).map
        (fun p => p.1.full_log.length) ≠ some 1) := by
  decide

/-- C8 (amended): an observe run with rounds=2 and exactly 2 active
(loaded) participants that completes normally adds exactly 7 new
transcript entries — the system observing note plus 2×2=4 dialogue turns
plus 2 synthesis turns — over 6 generation calls; an interruption during
the second generation call adds exactly 2 new entries (the system note
plus the first dialogue turn) and no synthesis entries, over 1 completed
generation call. -/
theorem run_observe_entry_count (S : RoomState) (k1 k2 : Str)
    (c1 c2 : PersonaContext) (topic : Str) (oracle : Nat → Outcome)
    (hact : S.active_personas = [k1, k2])
    (h1 : personaGet S.personas k1 = some c1)
    (h2 : personaGet S.personas k2 = some c2) :
    ((∀ i, (oracle i).isReply = true) →
      ∃ S', run_observe S topic 2 oracle = some (S', 6)
        ∧ S'.full_log.length = S.full_log.length + 7)
  ∧ ((oracle 0).isReply = true → oracle 1 = .interrupt →
      ∃ S', run_observe S topic 2 oracle = some (S', 1)
        ∧ S'.full_log.length = S.full_log.length + 2) := by
  have hlen : ¬ (S.active_personas.length < 2) := by
    rw [hact, show ([k1, k2] : List Str).length = 2 from rfl]
    omega
  constructor
  · intro hr
    simp only [run_observe]
    rw [if_neg hlen, if_pos (by norm_num : (2 : Nat) > 0), hact]
    exact run_observe_loop_six oracle _ _ _ k1 k2 _ S.full_log.length
      (by simp only [append_log]; rw [h1]; rfl)
      (by simp only [append_log]; rw [h2]; rfl)
      hr (by simp [append_log]) rfl
  · intro hr0 hr1
    simp only [run_observe]
    rw [if_neg hlen, if_pos (by norm_num : (2 : Nat) > 0), hact]
    exact run_observe_loop_stop oracle _ _ _ k1 k2 _ S.full_log.length
      (by simp only [append_log]; rw [h1]; rfl)
      (by simp only [append_log]; rw [h2]; rfl)
      hr0 hr1 (by simp [append_log]) rfl

/-- C8 witness: the amended theorem applied to the concrete
two-participant room. -/
theorem run_observe_entry_count_witness :
    ∃ S', run_observe roomTwo [] 2 oracleOk = some (S', 6)
      ∧ S'.full_log.length = roomTwo.full_log.length + 7 :=
  (run_observe_entry_count roomTwo "1".toList "2".toList ctxLena ctxMarcus
    [] oracleOk (by decide) (by decide) (by decide)).1 (fun _ => rfl)

end FocusGroup
